import Mathlib

/-!
# Shallow embedding of the VRFaceTracking daemon core

This file embeds, in Lean 4, the parts of the `vrft_d` crate that the
verified properties speak about:

* `matches_address` — OSC avatar-parameter address matching
  (`app/src/osc/parameters/base_param.rs`);
* the binary bit-encoding parameter (`binary_param.rs`);
* the calibration parameter state machine (`common/src/calibration.rs`);
* pupil normalization (`common/src/mutations/normalization.rs`);
* One-Euro smoothing (`common/src/euro_filter.rs`, `mutations/smoothing.rs`);
* calibration persistence sanitisation (`common/src/calibration_manager.rs`);
* the parameter registry hot path (`registry.rs`) and the top-level
  `UnifiedTrackingMutator::mutate` (`common/src/mutator.rs`).

Modelling conventions:

* Rust `f32` arithmetic is idealised as exact rational arithmetic (`ℚ`).
  None of the properties below hinges on a rounding ulp.  Where NaN is
  load-bearing (the calibration `current_step`, euro-filter inputs) it is
  modelled explicitly with `Option ℚ`; where infinities matter
  (persistence sanitisation) a dedicated four-constructor value type is
  used.  Numeric literals such as `0.15` are taken at their decimal value.
* The transcendental routines `sqrt`, `powf` and `exp` have no exact
  rational counterpart; they are abstracted as an oracle record
  (`FloatOps`) threaded through the affected definitions, and every
  theorem below holds for an arbitrary oracle.
* Rust strings are modelled as `List Char` (the inputs of interest are
  ASCII, so bytes and chars coincide).
-/

namespace VRFT

/-! ## Address matching (`base_param.rs::matches_address`) -/

/-- Embeds `DEFAULT_PREFIX = "/avatar/parameters/"`. -/
def oscPre : List Char := "/avatar/parameters/".toList

/-- Rust `str::strip_prefix`: `some` of the remainder when the first
argument is an initial segment of the second. -/
def stripPre : List Char → List Char → Option (List Char)
  | [], l => some l
  | _ :: _, [] => none
  | p :: ps, a :: as => if a = p then stripPre ps as else none

/-- Rust `str::ends_with`: the second list is a final segment of the first. -/
def endsWithQ (l s : List Char) : Bool :=
  decide (l.drop (l.length - s.length) = s)

/-- Embeds `base_param.rs::matches_address`.  Strips `/avatar/parameters/`,
accepts an exact match of `name`, else a suffix match `…/{name}` unless
the character just before the `/{name}` suffix (`bytes[len-1]`) is an
ASCII digit and the one before that (`bytes[len-2]`) is the letter `v`.
`before.getLast?` plays the role of `bytes[bytes.len()-1]` and
`before.dropLast.getLast?` of `bytes[bytes.len()-2]`; the source's
redundant `bytes.len() >= 2` test is kept in place. -/
def matches_address (name addr : List Char) : Bool :=
  match stripPre oscPre addr with
  | none => false
  | some stripped =>
    if stripped = name then
      true
    else
      let suffix := '/' :: name
      if endsWithQ stripped suffix then
        let plen := stripped.length - suffix.length
        let before := stripped.take plen
        if 2 ≤ plen then
          if 2 ≤ before.length then
            !(before.getLast?.any Char.isDigit && decide (2 ≤ before.length) &&
              before.dropLast.getLast?.any (fun c => c = 'v'))
          else true
        else true
      else false

/-- Modelled from the spec's words, for comparison with the code: the
segment immediately preceding the trailing `/{name}` (the part of the
stripped address after its last `/`) matches the pattern `v\d+`:
a `v` followed by one or more ASCII digits. -/
def specSegIsVersion (seg : List Char) : Bool :=
  match seg with
  | 'v' :: rest => !rest.isEmpty && rest.all Char.isDigit
  | _ => false

/-- Modelled from the spec's words: the last `/`-separated segment of a
string. -/
def specLastSeg (l : List Char) : List Char :=
  (l.reverse.takeWhile (fun c => c ≠ '/')).reverse

/-- Modelled from the spec's words (claim C1): accept iff the address
starts with `/avatar/parameters/` and, after stripping, either equals the
name exactly, or ends with `/{name}` where the segment immediately
preceding that suffix does not match `v\d+`. -/
def spec_matches (name addr : List Char) : Bool :=
  match stripPre oscPre addr with
  | none => false
  | some stripped =>
    stripped = name ||
      (endsWithQ stripped ('/' :: name) &&
        !specSegIsVersion
          (specLastSeg (stripped.take (stripped.length - (name.length + 1)))))

theorem stripPre_eq_some (p : List Char) :
    ∀ l s, stripPre p l = some s ↔ l = p ++ s := by
  induction p with
  | nil => intro l s; simp [stripPre]
  | cons c p ih =>
    intro l s
    cases l with
    | nil => simp [stripPre]
    | cons a l =>
      by_cases h : a = c
      · subst h; simp [stripPre, ih]
      · simp [stripPre, h, Ne.symm h]

theorem endsWithQ_iff (l s : List Char) :
    endsWithQ l s = true ↔ ∃ pre, l = pre ++ s := by
  unfold endsWithQ
  rw [decide_eq_true_iff]
  constructor
  · intro h
    refine ⟨l.take (l.length - s.length), ?_⟩
    conv_lhs => rw [← List.take_append_drop (l.length - s.length) l]
    rw [h]
  · rintro ⟨pre, rfl⟩
    have hlen : (pre ++ s).length - s.length = pre.length := by
      simp
    rw [hlen, List.drop_left]

/-- Reject-guard of the suffix branch of `matches_address`, as the code
implements it: the prefix before `/{name}` has at least two characters,
its last character is an ASCII digit, and its second-to-last character is
the letter `v`. -/
def codeRejectTail (pre : List Char) : Prop :=
  pre.getLast?.any Char.isDigit = true ∧ 2 ≤ pre.length ∧
    pre.dropLast.getLast?.any (fun c => c = 'v') = true

theorem rejectGuard_iff (pre : List Char) :
    (if 2 ≤ pre.length then
       if 2 ≤ pre.length then
         !(pre.getLast?.any Char.isDigit && decide (2 ≤ pre.length) &&
           pre.dropLast.getLast?.any (fun c => c = 'v'))
       else true
     else true) = true ↔ ¬ codeRejectTail pre := by
  by_cases hl : 2 ≤ pre.length
  · simp only [hl, if_true]
    cases hdig : pre.getLast?.any Char.isDigit <;>
      cases hv : pre.dropLast.getLast?.any (fun c => c = 'v') <;>
        simp [codeRejectTail, hdig, hv, hl]
  · simp [hl, codeRejectTail]

/-- Claim C1 (amended): an address is accepted iff it starts with
`/avatar/parameters/` and the stripped remainder equals the name, or ends
with `/{name}` and the last two characters before that suffix are not
`v` followed by an ASCII digit. -/
theorem matches_address_characterization (name addr : List Char) :
    matches_address name addr = true ↔
      ∃ st, addr = oscPre ++ st ∧
        (st = name ∨
          ∃ pre, st = pre ++ '/' :: name ∧ ¬ codeRejectTail pre) := by
  unfold matches_address
  cases h : stripPre oscPre addr with
  | none =>
    simp only [Bool.false_eq_true, false_iff]
    rintro ⟨st, haddr, -⟩
    rw [← stripPre_eq_some oscPre addr st] at haddr
    rw [h] at haddr
    exact Option.noConfusion haddr
  | some st =>
    have haddr : addr = oscPre ++ st := (stripPre_eq_some _ _ _).mp h
    subst haddr
    constructor
    · intro hcode
      refine ⟨st, rfl, ?_⟩
      by_cases h1 : st = name
      · exact Or.inl h1
      · simp only [h1, if_false] at hcode
        by_cases h2 : endsWithQ st ('/' :: name) = true
        · obtain ⟨pre, hpre⟩ := (endsWithQ_iff _ _).mp h2
          refine Or.inr ⟨pre, hpre, ?_⟩
          have hplen : st.length - ('/' :: name).length = pre.length := by
            subst hpre; simp
          have hbefore : st.take pre.length = pre := by
            subst hpre; exact List.take_left pre _
          simp only [h2, if_true, hplen, hbefore] at hcode
          exact (rejectGuard_iff pre).mp hcode
        · simp only [Bool.not_eq_true] at h2
          rw [h2] at hcode
          simp at hcode
    · rintro ⟨st', haddr', hcond⟩
      have hst : st = st' := List.append_cancel_left haddr'
      subst hst
      rcases hcond with h1 | ⟨pre, hpre, hnr⟩
      · simp [h1]
      · by_cases h1 : st = name
        · simp [h1]
        · simp only [h1, if_false]
          have h2 : endsWithQ st ('/' :: name) = true :=
            (endsWithQ_iff _ _).mpr ⟨pre, hpre⟩
          simp only [h2, if_true]
          have hplen : st.length - ('/' :: name).length = pre.length := by
            subst hpre; simp
          have hbefore : st.take pre.length = pre := by
            subst hpre; exact List.take_left pre _
          simp only [hplen, hbefore]
          exact (rejectGuard_iff pre).mpr hnr

/-- Claim C1 counterexample: the address `/avatar/parameters/v12/EyeLeftX`
is accepted by the code for parameter `EyeLeftX`, although the segment
`v12` preceding `/EyeLeftX` matches `v\d+`, so the claim's
characterisation says it must be rejected. -/
theorem matches_address_v12_divergence :
    matches_address "EyeLeftX".toList "/avatar/parameters/v12/EyeLeftX".toList = true ∧
    spec_matches "EyeLeftX".toList "/avatar/parameters/v12/EyeLeftX".toList = false := by
  exact ⟨by decide, by decide⟩

/-! ## Binary parameter (`binary_param.rs`) -/

/-- OSC message payloads, as produced by the parameter `process` methods. -/
inductive OscVal
  | f (x : ℚ)
  | b (x : Bool)
  | i (x : ℤ)
deriving DecidableEq

/-- One OSC message: target address and payload. -/
abbrev Msg := String × OscVal

/-- Rust `f32 as u32` cast: truncation toward zero, saturating into
`[0, 2^32)`. -/
def ratToU32 (q : ℚ) : ℕ :=
  if q ≤ 0 then 0 else min (Int.toNat ⌊q⌋) (2 ^ 32 - 1)

/-- Embeds `binary_param.rs::BinaryBaseParameter::process_binary`.  Negative
values with no discovered `{name}Negative` address give `false`; values
with `|v| > 0.99999` saturate to `true`; otherwise the scaled magnitude
is cast to `u32` and the requested bit extracted. -/
def process_binary (negative_relevant : Bool) (max_binary_int : ℕ)
    (value : ℚ) (binary_index : ℕ) : Bool :=
  if !negative_relevant && decide (value < 0) then false
  else
    let val := |value|
    if (99999 : ℚ) / 100000 < val then true
    else
      let big_value := ratToU32 (val * (max_binary_int : ℚ))
      (big_value >>> binary_index) &&& 1 == 1

/-- Embeds `HashMap::get` on the delta cache, modelled on an association list in
which the most recent binding is listed first. -/
def lookupBits (m : List (String × Bool)) (k : String) : Option Bool :=
  (m.find? (fun p => decide (p.1 = k))).map Prod.snd

/-- Embeds `HashMap::insert` on the delta cache: the new binding shadows any
older one under `lookupBits`. -/
def insertBits (k : String) (v : Bool) (m : List (String × Bool)) :
    List (String × Bool) :=
  (k, v) :: m

/-- State of `BinaryBaseParameter` that `process` reads and writes. -/
structure BinaryPS where
  relevant : Bool
  bit_params : List (String × ℕ)
  negative_param : Option String
  negative_relevant : Bool
  max_binary_int : ℕ
  last_bits : List (String × Bool)
deriving DecidableEq

/-- The `for (addr, shift_index) in &self.bit_params` loop of
`BinaryBaseParameter::process`: emit each bit whose value changed and
record it in the delta cache. -/
def bitsLoop (negRel : Bool) (mbi : ℕ) (value : ℚ) :
    List (String × ℕ) → List Msg → List (String × Bool) →
    List Msg × List (String × Bool)
  | [], msgs, lb => (msgs, lb)
  | bp :: rest, msgs, lb =>
    if lookupBits lb bp.1 ≠ some (process_binary negRel mbi value bp.2) then
      bitsLoop negRel mbi value rest
        (msgs ++ [(bp.1, OscVal.b (process_binary negRel mbi value bp.2))])
        (insertBits bp.1 (process_binary negRel mbi value bp.2) lb)
    else
      bitsLoop negRel mbi value rest msgs lb

/-- Embeds `binary_param.rs::BinaryBaseParameter::process`. -/
def binaryProcess (p : BinaryPS) (value : ℚ) : List Msg × BinaryPS :=
  if !p.relevant then ([], p)
  else
    let negStep : List Msg × List (String × Bool) :=
      match p.negative_param with
      | some negAddr =>
        if p.negative_relevant then
          if lookupBits p.last_bits negAddr ≠ some (decide (value < 0)) then
            ([(negAddr, OscVal.b (decide (value < 0)))],
              insertBits negAddr (decide (value < 0)) p.last_bits)
          else ([], p.last_bits)
        else ([], p.last_bits)
      | none => ([], p.last_bits)
    let out := bitsLoop p.negative_relevant p.max_binary_int value
      p.bit_params negStep.1 negStep.2
    (out.1, { p with last_bits := out.2 })

/-- Modelled from the spec: `round` to the nearest integer (half away
from zero on the inputs of interest; no tie arises below). -/
def specRound (q : ℚ) : ℕ :=
  Int.toNat ⌊q + 1 / 2⌋

theorem beq_one_eq_testBit (n k : ℕ) :
    ((n >>> k) &&& 1 == 1) = Nat.testBit n k := by
  rw [Nat.testBit_to_div_mod, Nat.and_one_is_mod, Nat.shiftRight_eq_div_pow]
  by_cases h : n / 2 ^ k % 2 = 1
  · simp [h]
  · simp [h]

theorem bitsLoop_lookup_notin (negRel : Bool) (mbi : ℕ) (value : ℚ)
    (bps : List (String × ℕ)) :
    ∀ msgs lb a, a ∉ bps.map Prod.fst →
      lookupBits (bitsLoop negRel mbi value bps msgs lb).2 a = lookupBits lb a := by
  induction bps with
  | nil => intro msgs lb a _; rfl
  | cons bp rest ih =>
    intro msgs lb a ha
    simp only [List.map_cons, List.mem_cons, not_or] at ha
    obtain ⟨hne, hrest⟩ := ha
    unfold bitsLoop
    split
    · rw [ih _ _ _ hrest]
      unfold lookupBits insertBits
      rw [List.find?_cons_of_neg]
      simp [Ne.symm hne]
    · exact ih _ _ _ hrest

/-- Claim C2 (amended): each power-of-two bit address `N = 2^k` carries
bit `k` of `floor(|v| * 2^K)`; `|v| > 0.99999` saturates every bit; a
negative value with no `Negative` address yields false on every bit; and
a discovered `{name}Negative` address receives the sign bit. -/
theorem binary_param_encoding :
    (∀ (negRel : Bool) (K k : ℕ) (v : ℚ), |v| ≤ 1 → K ≤ 32 →
      process_binary negRel (2 ^ K) v k =
        if negRel = false ∧ v < 0 then false
        else if (99999 : ℚ) / 100000 < |v| then true
        else Nat.testBit (Int.toNat ⌊|v| * 2 ^ K⌋) k) ∧
    (∀ (p : BinaryPS) (v : ℚ) (negAddr : String),
      p.relevant = true → p.negative_relevant = true →
      p.negative_param = some negAddr →
      negAddr ∉ p.bit_params.map Prod.fst →
      lookupBits (binaryProcess p v).2.last_bits negAddr =
        some (decide (v < 0))) := by
  constructor
  · intro negRel K k v hv hK
    by_cases hneg : negRel = false ∧ v < 0
    · obtain ⟨h1, h2⟩ := hneg
      subst h1
      simp [process_binary, h2]
    · have hguard : (!negRel && decide (v < 0)) = false := by
        cases negRel
        · have : ¬ v < 0 := fun hv0 => hneg ⟨rfl, hv0⟩
          simp [this]
        · simp
      rw [if_neg hneg]
      unfold process_binary
      rw [hguard]
      simp only [Bool.false_eq_true, if_false]
      by_cases hsat : (99999 : ℚ) / 100000 < |v|
      · simp [hsat]
      · simp only [hsat, if_false]
        have habs : (0 : ℚ) ≤ |v| := abs_nonneg v
        have hvle : |v| ≤ (99999 : ℚ) / 100000 := le_of_not_lt hsat
        have hcast : ratToU32 (|v| * ((2 ^ K : ℕ) : ℚ)) =
            Int.toNat ⌊|v| * (2 : ℚ) ^ K⌋ := by
          have hpow : ((2 ^ K : ℕ) : ℚ) = (2 : ℚ) ^ K := by push_cast; ring
          rw [ratToU32, hpow]
          by_cases hz : |v| * (2 : ℚ) ^ K ≤ 0
          · have hq0 : |v| * (2 : ℚ) ^ K = 0 :=
              le_antisymm hz (mul_nonneg habs (by positivity))
            rw [if_pos hz, hq0]
            simp
          · rw [if_neg hz]
            have hb : |v| * (2 : ℚ) ^ K < ((2 : ℚ) ^ 32 - 1) := by
              have h1 : |v| * (2 : ℚ) ^ K ≤ (99999 : ℚ) / 100000 * 2 ^ 32 := by
                have hp : (2 : ℚ) ^ K ≤ 2 ^ 32 :=
                  pow_le_pow_right₀ (by norm_num) hK
                calc |v| * (2 : ℚ) ^ K ≤ (99999 : ℚ) / 100000 * 2 ^ K :=
                      mul_le_mul_of_nonneg_right hvle (by positivity)
                  _ ≤ (99999 : ℚ) / 100000 * 2 ^ 32 :=
                      mul_le_mul_of_nonneg_left hp (by norm_num)
              calc |v| * (2 : ℚ) ^ K ≤ (99999 : ℚ) / 100000 * 2 ^ 32 := h1
                _ < (2 : ℚ) ^ 32 - 1 := by norm_num
            have hfloor : ⌊|v| * (2 : ℚ) ^ K⌋ < 2 ^ 32 - 1 := by
              have := Int.floor_le (|v| * (2 : ℚ) ^ K)
              have hcmp : ((⌊|v| * (2 : ℚ) ^ K⌋ : ℚ)) < (2 : ℚ) ^ 32 - 1 :=
                lt_of_le_of_lt this hb
              by_contra hge
              push_neg at hge
              have : ((2 ^ 32 - 1 : ℤ) : ℚ) ≤ (⌊|v| * (2 : ℚ) ^ K⌋ : ℚ) := by
                exact_mod_cast hge
              rw [show ((2 ^ 32 - 1 : ℤ) : ℚ) = (2 : ℚ) ^ 32 - 1 by push_cast; ring] at this
              linarith
            have hle : Int.toNat ⌊|v| * (2 : ℚ) ^ K⌋ ≤ 2 ^ 32 - 1 := by
              omega
            omega
        simp only [hcast]
        exact beq_one_eq_testBit _ k
  · intro p v negAddr hrel hnegrel hnp hnotin
    simp only [binaryProcess, hrel, hnp, hnegrel, Bool.not_true,
      Bool.false_eq_true, if_false, if_true]
    by_cases hchg : lookupBits p.last_bits negAddr ≠ some (decide (v < 0))
    · rw [if_pos hchg]
      rw [bitsLoop_lookup_notin _ _ _ _ _ _ _ hnotin]
      unfold lookupBits insertBits
      rw [List.find?_cons_of_pos]
      · rfl
      · simp
    · rw [if_neg hchg]
      push_neg at hchg
      rw [bitsLoop_lookup_notin _ _ _ _ _ _ _ hnotin]
      exact hchg

/-- Claim C2 counterexample: with four discovered bits (`K = 4`,
denominator `16`) and canonical value `v = 27/64 = 0.421875` (exactly
representable in `f32`), the code truncates `0.421875 · 16 = 6.75` to `6`
and emits `false` on the `N = 1` bit, while `round(6.75) = 7` has bit 0
set, so the claimed `round` encoding requires `true`. -/
theorem process_binary_round_divergence :
    process_binary false 16 (27 / 64) 0 = false ∧
    specRound ((27 : ℚ) / 64 * 16) = 7 ∧
    Nat.testBit 7 0 = true := by
  refine ⟨?_, ?_, by decide⟩
  · unfold process_binary ratToU32
    rw [show |(27 : ℚ) / 64| = 27 / 64 from abs_of_nonneg (by norm_num)]
    norm_num
    decide
  · unfold specRound
    norm_num
    rfl

theorem binary_param_encoding_witness :
    (|(1 : ℚ) / 2| ≤ 1 ∧ (4 : ℕ) ≤ 32) ∧
    process_binary false (2 ^ 4) (1 / 2) 3 =
      (if (false = false ∧ (1 : ℚ) / 2 < 0) then false
       else if (99999 : ℚ) / 100000 < |(1 : ℚ) / 2| then true
       else Nat.testBit (Int.toNat ⌊|(1 : ℚ) / 2| * 2 ^ 4⌋) 3) ∧
    lookupBits
      (binaryProcess
        { relevant := true, bit_params := [("Test1", 0)],
          negative_param := some "TestNegative", negative_relevant := true,
          max_binary_int := 2, last_bits := [] } (-1 / 4)).2.last_bits
      "TestNegative" = some (decide ((-1 / 4 : ℚ) < 0)) := by
  refine ⟨⟨by rw [abs_le]; norm_num, by norm_num⟩, ?_, ?_⟩
  · exact binary_param_encoding.1 false 4 3 (1 / 2) (by rw [abs_le]; norm_num) (by norm_num)
  · exact binary_param_encoding.2
      { relevant := true, bit_params := [("Test1", 0)],
        negative_param := some "TestNegative", negative_relevant := true,
        max_binary_int := 2, last_bits := [] }
      (-1 / 4) "TestNegative" rfl rfl rfl (by decide)

/-! ## Calibration (`common/src/calibration.rs`)

The sample values handled here are finite `f32` data (the tracking
weights); they are modelled as `ℚ`.  The only place the code relies on
NaN is the `current_step` field (NaN marks "uninitialised"), modelled as
`Option ℚ` with `none` for NaN.  The `filter(|v| !v.is_nan())` over the
rational data buffer and the `is_nan` guards on freshly computed rational
statistics drop nothing in this model and are omitted. -/

/-- Oracle for the `f32` transcendental routines (`sqrt`, `powf`, `exp`).
Every theorem about the definitions below holds for an arbitrary oracle. -/
structure FloatOps where
  sqrt : ℚ → ℚ
  rpow : ℚ → ℚ → ℚ
  exp : ℚ → ℚ

/-- A trivial oracle used to instantiate witnesses whose conclusion does
not depend on the oracle. -/
def opsId : FloatOps :=
  { sqrt := id, rpow := fun a _ => a, exp := id }

/-- Embeds `POINTS = 64`. -/
def POINTS : ℕ := 64

/-- Embeds `S_DELTA = 0.15`. -/
def S_DELTA : ℚ := 15 / 100

/-- Embeds `C_DELTA = 0.1`. -/
def C_DELTA : ℚ := 1 / 10

/-- Embeds the source constant named EXPECTED CV RATIO, `= 1.732`. -/
def EXPECTED_CV : ℚ := 1732 / 1000

/-- Embeds `MAX_REASONABLE_STDDEV = 0.2887`. -/
def MAX_REASONABLE_STDDEV : ℚ := 2887 / 10000

/-- Embeds `STDDEV_QUALITY_FACTOR = 3.464`. -/
def STDDEV_QUALITY_FACTOR : ℚ := 3464 / 1000

/-- Embeds `SIGMOID_MIDPOINT = 0.05`. -/
def SIGMOID_MIDPOINT : ℚ := 5 / 100

/-- Embeds `SIGMOID_STEEPNESS = 40.0`. -/
def SIGMOID_STEEPNESS : ℚ := 40

/-- Embeds `calibration.rs::CalibrationParameter`.  `current_step = none`
models the NaN initial value. -/
structure CalibrationParameter where
  name : String
  rolling_index : ℕ
  fixed_index : ℕ
  finished : Bool
  data_points : List ℚ
  progress : ℚ
  current_step : Option ℚ
  max : ℚ
  mean : ℚ
  std_dev : ℚ
  confidence : ℚ
  max_confidence : ℚ
deriving DecidableEq

/-- Embeds `CalibrationParameter::default()`. -/
def calDefault : CalibrationParameter :=
  { name := "", rolling_index := 0, fixed_index := 0, finished := false,
    data_points := List.replicate POINTS 0, progress := 0,
    current_step := none, max := 0, mean := 0, std_dev := 0,
    confidence := 0, max_confidence := 0 }

/-- Embeds `CalibrationParameter::clamp_step`: `(value / factor).floor() * factor`. -/
def clamp_step (value factor : ℚ) : ℚ :=
  (⌊value / factor⌋ : ℚ) * factor

/-- Embeds `calculate_stats` local `new_mean`: arithmetic mean of the buffer. -/
def statsMean (l : List ℚ) : ℚ :=
  l.sum / (l.length : ℚ)

/-- Embeds `calculate_stats` locals `variance_sum` and the argument of `sqrt`. -/
def statsVariance (l : List ℚ) (m : ℚ) : ℚ :=
  (l.map (fun v => (v - m) ^ 2)).sum / (l.length : ℚ)

/-- Embeds `calculate_stats` locals `distribution_penalty`, `std_dev_limit`,
`mean_limit`, `mean_pusher` and the clamped `new_confidence`. -/
def statsConfidence (ops : FloatOps) (new_mean new_std_dev : ℚ) : ℚ :=
  let distribution_penalty :=
    max (1 - |EXPECTED_CV * new_std_dev - new_mean|) 0
  let std_dev_limit := (1 - max (new_std_dev - MAX_REASONABLE_STDDEV) 0) ^ 3
  let mean_limit := 1 - max (new_mean - 1 / 2) 0
  let mean_pusher := ops.rpow (2 * new_mean) (1 / 5)
  min (max (distribution_penalty * std_dev_limit * mean_limit * mean_pusher) 0) 1

/-- The confidence-gated field updates of `calculate_stats`: each new
statistic is blended with `lerp = 1 - confidence²`, and `max_confidence`
moves only when the new confidence exceeds it. -/
def statsBlend (p : CalibrationParameter)
    (new_mean new_std_dev new_confidence : ℚ) : CalibrationParameter :=
  let lerp := 1 - p.confidence ^ 2
  { p with
    mean := new_mean * lerp + p.mean * (1 - lerp),
    std_dev := new_std_dev * lerp + p.std_dev * (1 - lerp),
    confidence := new_confidence * lerp + p.confidence * (1 - lerp),
    max_confidence :=
      if p.max_confidence < new_confidence then
        p.max_confidence * lerp + new_confidence * (1 - lerp)
      else p.max_confidence }

/-- Embeds `CalibrationParameter::calculate_stats`. -/
def calculate_stats (ops : FloatOps) (p : CalibrationParameter) :
    CalibrationParameter :=
  let min_samples := Int.toNat ⌊(1 / 10 : ℚ) * (p.data_points.length : ℚ)⌋
  if p.fixed_index < min_samples then p
  else
    let valid_data := p.data_points.take (min p.fixed_index POINTS)
    if valid_data.isEmpty then p
    else
      let new_mean := statsMean valid_data
      let new_std_dev := ops.sqrt (statsVariance valid_data new_mean)
      let new_confidence := statsConfidence ops new_mean new_std_dev
      let p1 :=
        if p.max_confidence - C_DELTA ≤ new_confidence then
          statsBlend p new_mean new_std_dev new_confidence
        else p
      match valid_data.max? with
      | some max_val => if p1.max < max_val then { p1 with max := max_val } else p1
      | none => p1

/-- The `fixed_index`/`progress`/`finished` bookkeeping at the head of
the accepted branch of `update_calibration`. -/
def bumpIndex (p : CalibrationParameter) : CalibrationParameter :=
  if p.fixed_index < p.data_points.length then
    { p with fixed_index := p.fixed_index + 1,
             progress := ((p.fixed_index + 1 : ℕ) : ℚ) /
               (p.data_points.length : ℚ) }
  else if !p.finished then { p with finished := true } else p

/-- The accepted-sample branch of `update_calibration`: bump
`fixed_index`/`progress` (or latch `finished`), store the sample at
`rolling_index`, and — unless the buffer is full and `continuous` is off —
advance `rolling_index` and recompute the statistics. -/
def acceptStep (ops : FloatOps) (p : CalibrationParameter)
    (current_value : ℚ) (continuous : Bool) : CalibrationParameter :=
  let pb := { bumpIndex p with
    data_points := (bumpIndex p).data_points.set (bumpIndex p).rolling_index current_value }
  if !pb.finished || continuous then
    calculate_stats ops
      { pb with rolling_index := (pb.rolling_index + 1) % pb.data_points.length }
  else pb

/-- Embeds `CalibrationParameter::update_calibration`.  The acceptance test is
the code's `self.current_step.is_nan() || difference >= S_DELTA * d_t`,
and `current_step` is (re)quantised at the end of every call. -/
def update_calibration (ops : FloatOps) (p : CalibrationParameter)
    (current_value : ℚ) (continuous : Bool) (d_t : ℚ) : CalibrationParameter :=
  let accepted : Bool :=
    match p.current_step with
    | none => true
    | some c => decide (S_DELTA * d_t ≤ |current_value - c|)
  let p1 :=
    if accepted then acceptStep ops p current_value continuous
    else p
  { p1 with current_step := some (clamp_step current_value (S_DELTA * d_t)) }

/-- Embeds `CalibrationParameter::curve_adjusted_range`: `2v/(1+v)`, with no
adjustment (`1.0`) for non-positive input. -/
def curve_adjusted_range (value : ℚ) : ℚ :=
  if value ≤ 0 then 1 else 2 * value / (1 + value)

/-- Embeds `CalibrationParameter::calculate_parameter`.  The `is_nan` guards of
the source are vacuous over `ℚ` and the claim about this function is
restricted to non-NaN inputs. -/
def calculate_parameter (ops : FloatOps) (p : CalibrationParameter)
    (current_value : ℚ) (k : ℚ) : ℚ :=
  if p.confidence = 0 ∧ p.max = 0 then current_value
  else
    let adjusted_max := p.mean + k * p.std_dev
    let curve_exponent := curve_adjusted_range adjusted_max
    let curved_value := ops.rpow current_value curve_exponent
    let sigmoid :=
      1 / (1 + ops.exp (-SIGMOID_STEEPNESS * (current_value - SIGMOID_MIDPOINT)))
    let quality :=
      max (ops.rpow |STDDEV_QUALITY_FACTOR * p.std_dev - 1| (1 / 5)) 0
    let blend := p.confidence * sigmoid * quality
    blend * (min (max curved_value 0) 1) + (1 - blend) * current_value

theorem statsBlend_fields (p : CalibrationParameter) (m s c : ℚ) :
    (statsBlend p m s c).data_points = p.data_points ∧
    (statsBlend p m s c).fixed_index = p.fixed_index ∧
    (statsBlend p m s c).progress = p.progress ∧
    (statsBlend p m s c).rolling_index = p.rolling_index ∧
    (statsBlend p m s c).current_step = p.current_step ∧
    (statsBlend p m s c).finished = p.finished ∧
    (statsBlend p m s c).max = p.max := by
  unfold statsBlend
  exact ⟨rfl, rfl, rfl, rfl, rfl, rfl, rfl⟩

theorem statsBlend_max_confidence_le (p : CalibrationParameter) (m s c : ℚ) :
    p.max_confidence ≤ (statsBlend p m s c).max_confidence := by
  unfold statsBlend
  simp only
  split
  · nlinarith [sq_nonneg p.confidence]
  · exact le_refl _

theorem calculate_stats_fields (ops : FloatOps) (p : CalibrationParameter) :
    (calculate_stats ops p).data_points = p.data_points ∧
    (calculate_stats ops p).fixed_index = p.fixed_index ∧
    (calculate_stats ops p).progress = p.progress ∧
    (calculate_stats ops p).rolling_index = p.rolling_index ∧
    (calculate_stats ops p).current_step = p.current_step ∧
    (calculate_stats ops p).finished = p.finished := by
  simp only [calculate_stats]
  repeat' split
  all_goals exact ⟨rfl, rfl, rfl, rfl, rfl, rfl⟩

theorem calculate_stats_max_confidence_le (ops : FloatOps)
    (p : CalibrationParameter) :
    p.max_confidence ≤ (calculate_stats ops p).max_confidence := by
  simp only [calculate_stats]
  repeat' split
  all_goals try dsimp only
  all_goals first
    | exact le_refl _
    | exact statsBlend_max_confidence_le p _ _ _

/-- Claim C4: one `update_calibration` call never decreases
`max_confidence`; `max_confidence` is monotone over any run. -/
theorem update_calibration_max_confidence_mono (ops : FloatOps)
    (p : CalibrationParameter) (v : ℚ) (continuous : Bool) (dt : ℚ)
    (hdt : 0 < dt) :
    p.max_confidence ≤ (update_calibration ops p v continuous dt).max_confidence := by
  have hbump : (bumpIndex p).max_confidence = p.max_confidence := by
    unfold bumpIndex
    split
    · rfl
    · split <;> rfl
  have hstep : p.max_confidence ≤ (acceptStep ops p v continuous).max_confidence := by
    simp only [acceptStep]
    split
    · refine le_trans ?_ (calculate_stats_max_confidence_le ops _)
      show p.max_confidence ≤ (bumpIndex p).max_confidence
      exact le_of_eq hbump.symm
    · show p.max_confidence ≤ (bumpIndex p).max_confidence
      exact le_of_eq hbump.symm
  simp only [update_calibration]
  split
  · exact hstep
  · exact le_refl _

/-- The acceptance condition of `update_calibration`, as a proposition:
the quantised step is still NaN (first sample), or the sample moved at
least `S_DELTA · dt` away from it. -/
def acceptedSample (p : CalibrationParameter) (v dt : ℚ) : Prop :=
  p.current_step = none ∨
    ∃ c, p.current_step = some c ∧ S_DELTA * dt ≤ |v - c|

theorem bumpIndex_fields (p : CalibrationParameter) :
    (bumpIndex p).data_points = p.data_points ∧
    (bumpIndex p).rolling_index = p.rolling_index := by
  unfold bumpIndex
  split
  · exact ⟨rfl, rfl⟩
  · split <;> exact ⟨rfl, rfl⟩

theorem acceptStep_data_points (ops : FloatOps) (p : CalibrationParameter)
    (v : ℚ) (cont : Bool) :
    (acceptStep ops p v cont).data_points = p.data_points.set p.rolling_index v := by
  simp only [acceptStep]
  split
  · rw [(calculate_stats_fields ops _).1]
    show (bumpIndex p).data_points.set (bumpIndex p).rolling_index v = _
    rw [(bumpIndex_fields p).1, (bumpIndex_fields p).2]
  · show (bumpIndex p).data_points.set (bumpIndex p).rolling_index v = _
    rw [(bumpIndex_fields p).1, (bumpIndex_fields p).2]

theorem acceptStep_fixed_index (ops : FloatOps) (p : CalibrationParameter)
    (v : ℚ) (cont : Bool) :
    (acceptStep ops p v cont).fixed_index = (bumpIndex p).fixed_index := by
  simp only [acceptStep]
  split
  · rw [(calculate_stats_fields ops _).2.1]
  · rfl

theorem acceptStep_progress (ops : FloatOps) (p : CalibrationParameter)
    (v : ℚ) (cont : Bool) :
    (acceptStep ops p v cont).progress = (bumpIndex p).progress := by
  simp only [acceptStep]
  split
  · rw [(calculate_stats_fields ops _).2.2.1]
  · rfl

/-- Claim C3 (amended): a sample is accepted iff `current_step` is NaN or
`|v − current_step| ≥ S_DELTA · dt`; a rejected sample changes only
`current_step`; an accepted sample is stored at `rolling_index` and, while
the buffer is not yet full, advances `fixed_index` and `progress`; and
`current_step` is requantised to `floor(v / (S_DELTA·dt)) · (S_DELTA·dt)`
after every call, accepted or not. -/
theorem update_calibration_gate (ops : FloatOps) (p : CalibrationParameter)
    (v : ℚ) (continuous : Bool) (dt : ℚ) (hdt : 0 < dt) :
    (update_calibration ops p v continuous dt).current_step
      = some (clamp_step v (S_DELTA * dt)) ∧
    (¬ acceptedSample p v dt →
      update_calibration ops p v continuous dt
        = { p with current_step := some (clamp_step v (S_DELTA * dt)) }) ∧
    (acceptedSample p v dt →
      (update_calibration ops p v continuous dt).data_points
          = p.data_points.set p.rolling_index v ∧
      (p.fixed_index < p.data_points.length →
        (update_calibration ops p v continuous dt).fixed_index
            = p.fixed_index + 1 ∧
        (update_calibration ops p v continuous dt).progress
            = ((p.fixed_index + 1 : ℕ) : ℚ) / (p.data_points.length : ℚ))) := by
  refine ⟨rfl, ?_, ?_⟩
  · intro hrej
    have hb : (match p.current_step with
        | none => true
        | some c => decide (S_DELTA * dt ≤ |v - c|)) = false := by
      cases hcs : p.current_step with
      | none => exact absurd (Or.inl hcs) hrej
      | some c =>
        simp only [decide_eq_false_iff_not]
        intro hge
        exact hrej (Or.inr ⟨c, hcs, hge⟩)
    simp only [update_calibration, hb, Bool.false_eq_true, if_false]
  · intro hacc
    have hb : (match p.current_step with
        | none => true
        | some c => decide (S_DELTA * dt ≤ |v - c|)) = true := by
      rcases hacc with hnone | ⟨c, hcs, hge⟩
      · rw [hnone]
      · rw [hcs]
        exact decide_eq_true hge
    simp only [update_calibration, hb, if_true]
    refine ⟨?_, ?_⟩
    · show (acceptStep ops p v continuous).data_points = _
      exact acceptStep_data_points ops p v continuous
    · intro hlt
      constructor
      · show (acceptStep ops p v continuous).fixed_index = _
        rw [acceptStep_fixed_index]
        unfold bumpIndex
        rw [if_pos hlt]
      · show (acceptStep ops p v continuous).progress = _
        rw [acceptStep_progress]
        unfold bumpIndex
        rw [if_pos hlt]

theorem update_calibration_gate_witness :
    (0 : ℚ) < 1 ∧
    (update_calibration opsId calDefault 1 false 1).current_step
      = some (clamp_step 1 (S_DELTA * 1)) :=
  ⟨by norm_num,
    (update_calibration_gate opsId calDefault 1 false 1 (by norm_num)).1⟩

/-- Claim C3 counterexample: start from the default state, accept `v = 1`
at `dt = 1` (so `current_step = 0.9`), then feed `v = 0.85` at `dt = 2`.
The sample is rejected (`|0.85 − 0.9| = 0.05 < 0.15·2`), yet
`current_step` moves from `0.9` to `0.6`: the code requantises
`current_step` on every call, not only after an acceptance. -/
theorem update_calibration_rejected_divergence :
    ((update_calibration opsId calDefault 1 false 1).current_step
        = some (9 / 10)) ∧
    ¬ acceptedSample (update_calibration opsId calDefault 1 false 1)
        (17 / 20) 2 ∧
    ((update_calibration opsId
        (update_calibration opsId calDefault 1 false 1)
        (17 / 20) false 2).current_step = some (3 / 5)) ∧
    (3 / 5 : ℚ) ≠ 9 / 10 := by
  have h1 : (update_calibration opsId calDefault 1 false 1).current_step
      = some (9 / 10) := by
    show some (clamp_step 1 (S_DELTA * 1)) = some (9 / 10)
    unfold clamp_step S_DELTA
    norm_num
  refine ⟨h1, ?_, ?_, by norm_num⟩
  · rintro (hnone | ⟨c, hc, hge⟩)
    · rw [h1] at hnone
      exact Option.noConfusion hnone
    · rw [h1] at hc
      injection hc with hc
      subst hc
      rw [show |(17 : ℚ) / 20 - 9 / 10| = 1 / 20 by rw [abs_sub_comm]; rw [abs_of_nonneg] <;> norm_num] at hge
      rw [S_DELTA] at hge
      norm_num at hge
  · show some (clamp_step (17 / 20) (S_DELTA * 2)) = some (3 / 5)
    unfold clamp_step S_DELTA
    norm_num

theorem update_calibration_max_confidence_mono_witness :
    (0 : ℚ) < 1 ∧
    calDefault.max_confidence ≤
      (update_calibration opsId calDefault 1 false 1).max_confidence :=
  ⟨by norm_num,
    update_calibration_max_confidence_mono opsId calDefault 1 false 1 (by norm_num)⟩

/-- Claim C6: with `confidence = 0` and `max = 0` (no data ever
collected) `calculate_parameter` returns its input unchanged, for every
blend factor `k` and every oracle. -/
theorem calculate_parameter_blend_floor (ops : FloatOps)
    (p : CalibrationParameter) (v k : ℚ)
    (hconf : p.confidence = 0) (hmax : p.max = 0) :
    calculate_parameter ops p v k = v := by
  unfold calculate_parameter
  rw [if_pos ⟨hconf, hmax⟩]

theorem calculate_parameter_blend_floor_witness :
    calDefault.confidence = 0 ∧ calDefault.max = 0 ∧
    calculate_parameter opsId calDefault (2 / 5) 1 = 2 / 5 :=
  ⟨rfl, rfl, calculate_parameter_blend_floor opsId calDefault (2 / 5) 1 rfl rfl⟩

/-! ## Pupil normalization (`common/src/mutations/normalization.rs`) -/

/-- The running min/max window of `NormalizationMutation`. -/
structure NormState where
  min_pupil_l : ℚ
  max_pupil_l : ℚ
  min_pupil_r : ℚ
  max_pupil_r : ℚ
deriving DecidableEq

/-- Embeds `NormalizationMutation::new`: min seeded to `999.0`, max to `0.0`. -/
def normInit : NormState :=
  { min_pupil_l := 999, max_pupil_l := 0, min_pupil_r := 999, max_pupil_r := 0 }

/-- Embeds `NormalizationMutation::mutate`: update the per-eye bounds from
strictly positive diameters, then rewrite both diameters from the
updated bounds; returns the new state and the two outputs. -/
def normMutate (s : NormState) (curr_l curr_r : ℚ) : NormState × ℚ × ℚ :=
  let s1 :=
    if 0 < curr_l then
      { s with
        min_pupil_l := if curr_l < s.min_pupil_l then curr_l else s.min_pupil_l,
        max_pupil_l := if s.max_pupil_l < curr_l then curr_l else s.max_pupil_l }
    else s
  let s2 :=
    if 0 < curr_r then
      { s1 with
        min_pupil_r := if curr_r < s1.min_pupil_r then curr_r else s1.min_pupil_r,
        max_pupil_r := if s1.max_pupil_r < curr_r then curr_r else s1.max_pupil_r }
    else s1
  let out_l :=
    if 1 / 1000 < s2.max_pupil_l - s2.min_pupil_l then
      (curr_l - s2.min_pupil_l) / (s2.max_pupil_l - s2.min_pupil_l)
    else 1 / 2
  let out_r :=
    if 1 / 1000 < s2.max_pupil_r - s2.min_pupil_r then
      (curr_r - s2.min_pupil_r) / (s2.max_pupil_r - s2.min_pupil_r)
    else 1 / 2
  (s2, out_l, out_r)

theorem normMutate_state_nonpos (s : NormState) (l r : ℚ)
    (hl : l ≤ 0) (hr : r ≤ 0) : (normMutate s l r).1 = s := by
  simp only [normMutate, if_neg (not_lt.mpr hl), if_neg (not_lt.mpr hr)]

/-- Claim C7: the bounds move only on strictly positive diameters; each
output is `(v − min)/(max − min)` against the updated bounds when the
span exceeds `1e-3` and `0.5` otherwise; a run that observes only
non-positive diameters keeps the initial bounds and outputs `0.5`. -/
theorem pupil_normalization_spec :
    (∀ (s : NormState) (l r : ℚ), l ≤ 0 →
      (normMutate s l r).1.min_pupil_l = s.min_pupil_l ∧
      (normMutate s l r).1.max_pupil_l = s.max_pupil_l) ∧
    (∀ (s : NormState) (l r : ℚ), r ≤ 0 →
      (normMutate s l r).1.min_pupil_r = s.min_pupil_r ∧
      (normMutate s l r).1.max_pupil_r = s.max_pupil_r) ∧
    (∀ (s : NormState) (l r : ℚ),
      (normMutate s l r).2.1 =
        if 1 / 1000 <
            (normMutate s l r).1.max_pupil_l - (normMutate s l r).1.min_pupil_l then
          (l - (normMutate s l r).1.min_pupil_l) /
            ((normMutate s l r).1.max_pupil_l - (normMutate s l r).1.min_pupil_l)
        else 1 / 2) ∧
    (∀ (s : NormState) (l r : ℚ),
      (normMutate s l r).2.2 =
        if 1 / 1000 <
            (normMutate s l r).1.max_pupil_r - (normMutate s l r).1.min_pupil_r then
          (r - (normMutate s l r).1.min_pupil_r) /
            ((normMutate s l r).1.max_pupil_r - (normMutate s l r).1.min_pupil_r)
        else 1 / 2) ∧
    (∀ zs : List (ℚ × ℚ), (∀ q ∈ zs, q.1 ≤ 0 ∧ q.2 ≤ 0) →
      zs.foldl (fun s q => (normMutate s q.1 q.2).1) normInit = normInit) ∧
    (normMutate normInit 0 0).2.1 = 1 / 2 ∧
    (normMutate normInit 0 0).2.2 = 1 / 2 := by
  refine ⟨?_, ?_, ?_, ?_, ?_, ?_, ?_⟩
  · intro s l r hl
    simp only [normMutate, if_neg (not_lt.mpr hl)]
    split <;> exact ⟨rfl, rfl⟩
  · intro s l r hr
    simp only [normMutate, if_neg (not_lt.mpr hr)]
    split <;> exact ⟨rfl, rfl⟩
  · intro s l r
    rfl
  · intro s l r
    rfl
  · intro zs
    induction zs with
    | nil => intro _; rfl
    | cons q rest ih =>
      intro hz
      rw [List.foldl_cons,
        normMutate_state_nonpos _ _ _ (hz q (by simp)).1 (hz q (by simp)).2]
      exact ih (fun x hx => hz x (by simp [hx]))
  · norm_num [normMutate, normInit]
  · norm_num [normMutate, normInit]

theorem pupil_normalization_spec_witness :
    (∀ q ∈ ([(0, 0)] : List (ℚ × ℚ)), q.1 ≤ 0 ∧ q.2 ≤ 0) ∧
    ([(0, 0)] : List (ℚ × ℚ)).foldl
      (fun s q => (normMutate s q.1 q.2).1) normInit = normInit :=
  ⟨by norm_num, pupil_normalization_spec.2.2.2.2.1 [(0, 0)] (by norm_num)⟩

/-! ## One-Euro smoothing (`euro_filter.rs`, `mutations/smoothing.rs`)

Filter inputs are `Option ℚ`, with `none` modelling a NaN sample; all
other quantities are finite rationals.  `pi32` is the exact rational
value of the `f32` constant `std::f32::consts::PI`. -/

/-- Embeds `euro_filter.rs::EuroFilter`. -/
structure EuroFilter where
  min_cutoff : ℚ
  beta : ℚ
  d_cutoff : ℚ
  hz : ℚ
  x_prev : ℚ
  dx_prev : ℚ
  raw_x_prev : ℚ
  initialized : Bool
deriving DecidableEq

/-- Exact value of the `f32` constant `PI` (bit pattern `0x40490FDB`). -/
def pi32 : ℚ := 13176795 / 4194304

/-- Embeds `EuroFilter::default()`. -/
def euroDefault : EuroFilter :=
  { min_cutoff := 1, beta := 1 / 2, d_cutoff := 1, hz := 10,
    x_prev := 0, dx_prev := 0, raw_x_prev := 0, initialized := false }

/-- Embeds `EuroFilter::new_with_config`. -/
def euroNewWithConfig (mc b : ℚ) : EuroFilter :=
  { euroDefault with min_cutoff := mc, beta := b, d_cutoff := 1 / 10 }

/-- Embeds `EuroFilter::alpha`. -/
def euroAlpha (hz cutoff : ℚ) : ℚ :=
  let tau := 1 / (2 * pi32 * cutoff)
  let te := 1 / hz
  1 / (1 + tau / te)

/-- Embeds `EuroFilter::low_pass` (the returned smoothed value; the caller
stores it back into the state). -/
def low_pass (hat_x_prev x a : ℚ) : ℚ :=
  a * x + (1 - a) * hat_x_prev

/-- Embeds `EuroFilter::filter`.  `none` is the NaN input: the code returns
`0.0` without touching the state.  The first `some` call initialises the
state and passes the input through. -/
def euroFilter (f : EuroFilter) (x : Option ℚ) : ℚ × EuroFilter :=
  match x with
  | none => (0, f)
  | some x =>
    if !f.initialized then
      (x, { f with initialized := true, raw_x_prev := x, x_prev := x, dx_prev := 0 })
    else
      let dx := (x - f.raw_x_prev) * f.hz
      let edx := low_pass f.dx_prev dx (euroAlpha f.hz f.d_cutoff)
      let cutoff := f.min_cutoff + f.beta * |edx|
      let hatx := low_pass f.x_prev x (euroAlpha f.hz cutoff)
      (hatx, { f with raw_x_prev := x, dx_prev := edx, x_prev := hatx })

/-- Embeds `smoothing.rs::SmoothingMutation::calculate_params`. -/
def calculate_params (smoothness : ℚ) : ℚ × ℚ :=
  let min_cutoff := if smoothness ≤ 0 then 10 else 1 / (smoothness * 10)
  let beta := if smoothness ≤ 0 then 1 else 1 / 2 * (1 - smoothness)
  (min_cutoff, beta)

/-- Claim C8: `smoothness = 0 ↦ (min_cutoff, β) = (10, 1)` and
`smoothness = 1 ↦ (0.1, 0)`; the first call per signal passes the input
through unchanged; a NaN input always produces `0`. -/
theorem smoothing_filter_spec :
    calculate_params 0 = (10, 1) ∧
    calculate_params 1 = (1 / 10, 0) ∧
    (∀ (f : EuroFilter) (x : ℚ), f.initialized = false →
      (euroFilter f (some x)).1 = x) ∧
    (∀ f : EuroFilter, (euroFilter f none).1 = 0) := by
  refine ⟨?_, ?_, ?_, ?_⟩
  · norm_num [calculate_params]
  · norm_num [calculate_params]
  · intro f x hinit
    simp [euroFilter, hinit]
  · intro f
    rfl

theorem smoothing_filter_spec_witness :
    euroDefault.initialized = false ∧
    (euroFilter euroDefault (some (3 / 4))).1 = 3 / 4 :=
  ⟨rfl, smoothing_filter_spec.2.2.1 euroDefault (3 / 4) rfl⟩

/-! ## Calibration persistence (`common/src/calibration_manager.rs`)

For sanitisation the distinction finite / NaN / ±∞ is what matters, so
the persisted numeric fields are modelled by an explicit value type. -/

/-- An `f32` value as seen by `is_finite`: NaN, ±∞, or a finite value
(idealised as a rational). -/
inductive FVal
  | nan
  | inf
  | ninf
  | fin (q : ℚ)
deriving DecidableEq

/-- Rust `f32::is_finite`. -/
def FVal.isFinite : FVal → Bool
  | fin _ => true
  | _ => false

/-- The persisted fields of one `CalibrationParameter` record (the
serialised shape entry: transient fields are skipped). -/
structure ShapeRec where
  name : String
  progress : FVal
  mean : FVal
  std_dev : FVal
  confidence : FVal
  max_confidence : FVal
  max : FVal
deriving DecidableEq

/-- The per-shape body of
`calibration_manager.rs::CalibrationManager::sanitized_for_save`: zero a
non-finite `max`, zero a non-finite `progress`, leave everything else. -/
def sanitizeShape (s : ShapeRec) : ShapeRec :=
  let s1 := if ! s.max.isFinite then { s with max := FVal.fin 0 } else s
  if ! s1.progress.isFinite then { s1 with progress := FVal.fin 0 } else s1

/-- Embeds `CalibrationManager::sanitized_for_save`, applied to the `shapes`
vector that is then serialised. -/
def sanitized_for_save (shapes : List ShapeRec) : List ShapeRec :=
  shapes.map sanitizeShape

/-- Claim C9 counterexample: a record whose `mean` is `+∞` is persisted
with `mean` still `+∞` — `sanitized_for_save` only sanitises `max` and
`progress`, so not every non-finite numeric field is replaced with 0. -/
theorem sanitized_for_save_mean_divergence :
    (sanitized_for_save
        [{ name := "JawOpen", progress := FVal.fin 0, mean := FVal.inf,
           std_dev := FVal.fin 0, confidence := FVal.fin 0,
           max_confidence := FVal.fin 0, max := FVal.fin 0 }]).head? =
      some { name := "JawOpen", progress := FVal.fin 0, mean := FVal.inf,
             std_dev := FVal.fin 0, confidence := FVal.fin 0,
             max_confidence := FVal.fin 0, max := FVal.fin 0 } ∧
    FVal.isFinite FVal.inf = false ∧
    FVal.inf ≠ FVal.fin 0 := by
  refine ⟨rfl, rfl, ?_⟩
  intro h
  exact FVal.noConfusion h

/-- Claim C9 (amended): on save, only `max` and `progress` are
sanitised — each is kept when finite and replaced by `0` when
non-finite — while `name`, `mean`, `std_dev`, `confidence` and
`max_confidence` are persisted unchanged. -/
theorem sanitized_for_save_fields (shapes : List ShapeRec) :
    List.Forall₂ (fun a b =>
      b.name = a.name ∧
      b.mean = a.mean ∧
      b.std_dev = a.std_dev ∧
      b.confidence = a.confidence ∧
      b.max_confidence = a.max_confidence ∧
      (a.max.isFinite = true → b.max = a.max) ∧
      (a.max.isFinite = false → b.max = FVal.fin 0) ∧
      (a.progress.isFinite = true → b.progress = a.progress) ∧
      (a.progress.isFinite = false → b.progress = FVal.fin 0))
      shapes (sanitized_for_save shapes) := by
  induction shapes with
  | nil => exact List.Forall₂.nil
  | cons s rest ih =>
    simp only [sanitized_for_save, List.map_cons] at ih ⊢
    refine List.Forall₂.cons ?_ ih
    unfold sanitizeShape
    cases hm : s.max.isFinite <;> cases hp : s.progress.isFinite <;>
      simp [hm, hp]

/-! ## Parameter registry hot path (`base_param.rs`, `registry.rs`)

Each parameter's `get_value` closure is a pure function of the frame, so
two identical frames feed identical values to `process`; the model keys
each parameter kind to the corresponding extracted value of an abstract
frame. -/

/-- State of `FloatParam` read and written by `process`. -/
structure FloatPS where
  relevant : Bool
  addresses : List String
  last_value : Option ℚ
  send_on_load : Bool
  needs_initial_send : Bool
deriving DecidableEq

/-- State of `BoolParam`. -/
structure BoolPS where
  relevant : Bool
  addresses : List String
  last_value : Option Bool
  send_on_load : Bool
  needs_initial_send : Bool
deriving DecidableEq

/-- State of `IntParam`. -/
structure IntPS where
  relevant : Bool
  addresses : List String
  last_value : Option ℤ
  send_on_load : Bool
  needs_initial_send : Bool
deriving DecidableEq

/-- Embeds `FloatParam::process`: initial forced send, then the
`(value - last).abs() > 0.00001` delta gate. -/
def floatProcess (p : FloatPS) (value : ℚ) : List Msg × FloatPS :=
  if ! p.relevant then ([], p)
  else if p.needs_initial_send then
    (p.addresses.map (fun a => (a, OscVal.f value)),
      { p with needs_initial_send := false, last_value := some value })
  else
    let should_send :=
      match p.last_value with
      | some last => decide (1 / 100000 < |value - last|)
      | none => true
    if ! should_send then ([], p)
    else
      (p.addresses.map (fun a => (a, OscVal.f value)),
        { p with last_value := some value })

/-- Embeds `BoolParam::process`: delta gate on inequality. -/
def boolProcess (p : BoolPS) (value : Bool) : List Msg × BoolPS :=
  if ! p.relevant then ([], p)
  else if p.needs_initial_send then
    (p.addresses.map (fun a => (a, OscVal.b value)),
      { p with needs_initial_send := false, last_value := some value })
  else
    let should_send :=
      match p.last_value with
      | some last => decide (value ≠ last)
      | none => true
    if ! should_send then ([], p)
    else
      (p.addresses.map (fun a => (a, OscVal.b value)),
        { p with last_value := some value })

/-- Embeds `IntParam::process`: delta gate on inequality. -/
def intProcess (p : IntPS) (value : ℤ) : List Msg × IntPS :=
  if ! p.relevant then ([], p)
  else if p.needs_initial_send then
    (p.addresses.map (fun a => (a, OscVal.i value)),
      { p with needs_initial_send := false, last_value := some value })
  else
    let should_send :=
      match p.last_value with
      | some last => decide (value ≠ last)
      | none => true
    if ! should_send then ([], p)
    else
      (p.addresses.map (fun a => (a, OscVal.i value)),
        { p with last_value := some value })

/-- One registered parameter of any kind. -/
inductive AnyParam
  | fl (p : FloatPS)
  | bo (p : BoolPS)
  | it (p : IntPS)
  | bin (p : BinaryPS)

/-- The values a tracking frame provides to the parameter getters. -/
structure Frame where
  fval : ℚ
  bval : Bool
  ival : ℤ

/-- Dispatch of `Parameter::process` over the parameter kinds. -/
def processAny (p : AnyParam) (fr : Frame) : List Msg × AnyParam :=
  match p with
  | .fl q => ((floatProcess q fr.fval).1, .fl (floatProcess q fr.fval).2)
  | .bo q => ((boolProcess q fr.bval).1, .bo (boolProcess q fr.bval).2)
  | .it q => ((intProcess q fr.ival).1, .it (intProcess q fr.ival).2)
  | .bin q => ((binaryProcess q fr.fval).1, .bin (binaryProcess q fr.fval).2)

/-- Embeds `registry.rs::ParameterRegistry::process`: run every parameter and
concatenate the emitted messages. -/
def registryProcess : List AnyParam → Frame → List Msg × List AnyParam
  | [], _ => ([], [])
  | p :: rest, fr =>
    ((processAny p fr).1 ++ (registryProcess rest fr).1,
      (processAny p fr).2 :: (registryProcess rest fr).2)

/-- Invariant of binary parameters as (re)built by `reset`: the bit
addresses come from `HashMap` keys, hence are distinct, and the
`{name}Negative` address (ending in `Negative`) is none of the numeric
bit addresses. -/
def binWF (q : BinaryPS) : Prop :=
  (q.bit_params.map Prod.fst).Nodup ∧
  (∀ a, q.negative_param = some a → a ∉ q.bit_params.map Prod.fst)

/-- Embeds `binWF` for the binary kind, trivial for the scalar kinds. -/
def paramWF : AnyParam → Prop
  | .bin q => binWF q
  | _ => True

theorem floatProcess_idem (q : FloatPS) (v : ℚ) :
    (floatProcess (floatProcess q v).2 v).1 = [] := by
  cases hr : q.relevant with
  | false => simp [floatProcess, hr]
  | true =>
    cases hi : q.needs_initial_send with
    | true => norm_num [floatProcess, hr, hi, sub_self]
    | false =>
      cases hl : q.last_value with
      | none => norm_num [floatProcess, hr, hi, hl, sub_self]
      | some last =>
        by_cases hs : (1 / 100000 : ℚ) < |v - last|
        · have hs' : ¬(|v - last| ≤ 1 / 100000) := not_le.mpr hs
          norm_num [floatProcess, hr, hi, hl, hs, hs', sub_self]
        · have hs' : |v - last| ≤ 1 / 100000 := not_lt.mp hs
          norm_num [floatProcess, hr, hi, hl, hs, hs', sub_self]

theorem boolProcess_idem (q : BoolPS) (v : Bool) :
    (boolProcess (boolProcess q v).2 v).1 = [] := by
  cases hr : q.relevant with
  | false => simp [boolProcess, hr]
  | true =>
    cases hi : q.needs_initial_send with
    | true => simp [boolProcess, hr, hi]
    | false =>
      cases hl : q.last_value with
      | none => simp [boolProcess, hr, hi, hl]
      | some last =>
        by_cases hs : v = last
        · simp [boolProcess, hr, hi, hl, hs]
        · simp [boolProcess, hr, hi, hl, hs]

theorem intProcess_idem (q : IntPS) (v : ℤ) :
    (intProcess (intProcess q v).2 v).1 = [] := by
  cases hr : q.relevant with
  | false => simp [intProcess, hr]
  | true =>
    cases hi : q.needs_initial_send with
    | true => simp [intProcess, hr, hi]
    | false =>
      cases hl : q.last_value with
      | none => simp [intProcess, hr, hi, hl]
      | some last =>
        by_cases hs : v = last
        · simp [intProcess, hr, hi, hl, hs]
        · simp [intProcess, hr, hi, hl, hs]

theorem bitsLoop_lookup_mem (negRel : Bool) (mbi : ℕ) (value : ℚ) :
    ∀ (bps : List (String × ℕ)) (msgs : List Msg) (lb : List (String × Bool)),
      (bps.map Prod.fst).Nodup →
      ∀ bp ∈ bps,
        lookupBits (bitsLoop negRel mbi value bps msgs lb).2 bp.1 =
          some (process_binary negRel mbi value bp.2) := by
  intro bps
  induction bps with
  | nil => intro msgs lb _ bp hbp; exact absurd hbp (List.not_mem_nil bp)
  | cons b rest ih =>
    intro msgs lb hnd bp hbp
    have hnd' : (rest.map Prod.fst).Nodup := (List.nodup_cons.mp hnd).2
    have hbnotin : b.1 ∉ rest.map Prod.fst := (List.nodup_cons.mp hnd).1
    rcases List.mem_cons.mp hbp with hbp | hbp
    · subst hbp
      unfold bitsLoop
      split
      · rw [bitsLoop_lookup_notin _ _ _ _ _ _ _ hbnotin]
        unfold lookupBits insertBits
        rw [List.find?_cons_of_pos _ (by simp)]
        rfl
      · rename_i hguard
        rw [not_not] at hguard
        rw [bitsLoop_lookup_notin _ _ _ _ _ _ _ hbnotin]
        exact hguard
    · unfold bitsLoop
      split
      · exact ih _ _ hnd' bp hbp
      · exact ih _ _ hnd' bp hbp

theorem bitsLoop_stable (negRel : Bool) (mbi : ℕ) (value : ℚ) :
    ∀ (bps : List (String × ℕ)) (msgs : List Msg) (lb : List (String × Bool)),
      (∀ bp ∈ bps,
        lookupBits lb bp.1 = some (process_binary negRel mbi value bp.2)) →
      bitsLoop negRel mbi value bps msgs lb = (msgs, lb) := by
  intro bps
  induction bps with
  | nil => intro msgs lb _; rfl
  | cons b rest ih =>
    intro msgs lb hlb
    unfold bitsLoop
    rw [if_neg (by
      rw [not_not]
      exact hlb b (List.mem_cons_self b rest))]
    exact ih _ _ (fun bp hbp => hlb bp (List.mem_cons_of_mem _ hbp))

theorem binaryProcess_idem (q : BinaryPS) (v : ℚ) (hwf : binWF q) :
    (binaryProcess (binaryProcess q v).2 v).1 = [] := by
  obtain ⟨hnd, hneg⟩ := hwf
  cases hr : q.relevant with
  | false => simp [binaryProcess, hr]
  | true =>
    -- the state after the first call
    have hrel2 : (binaryProcess q v).2.relevant = true := by
      simp [binaryProcess, hr]
    -- the delta cache after the first call answers every bit query
    have hbits : ∀ bp ∈ q.bit_params,
        lookupBits (binaryProcess q v).2.last_bits bp.1 =
          some (process_binary q.negative_relevant q.max_binary_int v bp.2) := by
      intro bp hbp
      simp only [binaryProcess, hr, Bool.not_true, Bool.false_eq_true, if_false]
      exact bitsLoop_lookup_mem _ _ _ _ _ _ hnd bp hbp
    have hstatic : (binaryProcess q v).2.bit_params = q.bit_params ∧
        (binaryProcess q v).2.negative_param = q.negative_param ∧
        (binaryProcess q v).2.negative_relevant = q.negative_relevant ∧
        (binaryProcess q v).2.max_binary_int = q.max_binary_int := by
      simp [binaryProcess, hr]
    obtain ⟨hbp2, hnp2, hnr2, hmbi2⟩ := hstatic
    -- the negative-bit cache entry after the first call
    have hnegbit : ∀ a, q.negative_param = some a → q.negative_relevant = true →
        lookupBits (binaryProcess q v).2.last_bits a = some (decide (v < 0)) := by
      intro a ha hrel
      simp only [binaryProcess, hr, Bool.not_true, Bool.false_eq_true, if_false, ha,
        hrel, if_true]
      rw [bitsLoop_lookup_notin _ _ _ _ _ _ _ (hneg a ha)]
      split
      · unfold lookupBits insertBits
        rw [List.find?_cons_of_pos _ (by simp)]
        rfl
      · rename_i hguard
        rw [not_not] at hguard
        exact hguard
    -- abstract the post-first-call state, then evaluate the second call
    generalize hgen : (binaryProcess q v).2 = s2 at hrel2 hbits hnegbit hbp2 hnp2 hnr2 hmbi2 ⊢
    simp only [binaryProcess, hrel2, Bool.not_true, Bool.false_eq_true, if_false]
    rw [hbp2, hnp2, hnr2, hmbi2]
    cases hnp : q.negative_param with
    | none =>
      rw [bitsLoop_stable _ _ _ _ _ _ (fun bp hbp => hbits bp hbp)]
    | some a =>
      cases hnr : q.negative_relevant with
      | false =>
        rw [hnr] at hbits
        simp only [hnr, Bool.false_eq_true, if_false]
        rw [bitsLoop_stable _ _ _ _ _ _ (fun bp hbp => hbits bp hbp)]
      | true =>
        rw [hnr] at hbits
        simp only [hnr, if_true]
        rw [if_neg (by
          rw [not_not]
          exact hnegbit a hnp hnr)]
        rw [bitsLoop_stable _ _ _ _ _ _ (fun bp hbp => hbits bp hbp)]

theorem processAny_idem (p : AnyParam) (fr : Frame) (hwf : paramWF p) :
    (processAny (processAny p fr).2 fr).1 = [] := by
  cases p with
  | fl q => exact floatProcess_idem q fr.fval
  | bo q => exact boolProcess_idem q fr.bval
  | it q => exact intProcess_idem q fr.ival
  | bin q => exact binaryProcess_idem q fr.fval hwf

/-- Claim C5: after any first `process` call, a second call with the
identical frame emits no messages, for every parameter kind; send-on-load
fires only on the first call, so the second call still emits nothing. -/
theorem registry_delta_suppression (ps : List AnyParam) (fr : Frame)
    (hwf : ∀ p ∈ ps, paramWF p) :
    (registryProcess (registryProcess ps fr).2 fr).1 = [] := by
  induction ps with
  | nil => rfl
  | cons p rest ih =>
    simp only [registryProcess]
    rw [processAny_idem p fr (hwf p (List.mem_cons_self p rest)),
      ih (fun x hx => hwf x (List.mem_cons_of_mem _ hx))]
    rfl

/-- A concrete registry used to instantiate `registry_delta_suppression`:
one send-on-load float parameter fresh from a reset and one binary
parameter with two bits and a sign address. -/
def sampleFloatParam : FloatPS :=
  { relevant := true, addresses := ["/avatar/parameters/Foo"],
    last_value := none, send_on_load := true, needs_initial_send := true }

/-- A concrete binary parameter with two bits and a sign address. -/
def sampleBinaryParam : BinaryPS :=
  { relevant := true, bit_params := [("Test1", 0), ("Test2", 1)],
    negative_param := some "TestNegative", negative_relevant := true,
    max_binary_int := 4, last_bits := [] }

def sampleRegistry : List AnyParam :=
  [AnyParam.fl sampleFloatParam, AnyParam.bin sampleBinaryParam]

/-- A concrete frame for the witness. -/
def sampleFrame : Frame :=
  { fval := 1 / 2, bval := true, ival := 3 }

theorem registry_delta_suppression_witness :
    (∀ p ∈ sampleRegistry, paramWF p) ∧
    (registryProcess (registryProcess sampleRegistry sampleFrame).2
      sampleFrame).1 = [] := by
  have hwf : ∀ p ∈ sampleRegistry, paramWF p := by
    intro p hp
    simp only [sampleRegistry] at hp
    rcases List.mem_cons.mp hp with hp | hp
    · subst hp; trivial
    · rcases List.mem_cons.mp hp with hp | hp
      · subst hp
        refine ⟨by decide, ?_⟩
        intro a ha
        injection ha with ha
        subst ha
        decide
      · exact absurd hp (List.not_mem_nil p)
  exact ⟨hwf, registry_delta_suppression sampleRegistry sampleFrame hwf⟩

/-! ## Top-level mutator (`common/src/mutator.rs`) -/

/-- One eye of the canonical tracking frame (the fields `mutate` touches). -/
structure Eye where
  openness : ℚ
  gazeX : ℚ
  gazeY : ℚ
  pupil : ℚ
deriving DecidableEq

/-- The canonical tracking frame as seen by `mutate`. -/
structure TrackFrame where
  eyeL : Eye
  eyeR : Eye
  shapes : List ℚ
deriving DecidableEq

/-- Embeds `calibration.rs::CalibrationState`. -/
inductive CalibrationState
  | uncalibrated
  | collecting (timer duration : ℚ)
  | calibrated
deriving DecidableEq

/-- Embeds `UnifiedTrackingMutator` state: config flags, calibration state
machine, per-expression calibration records, the One-Euro filter bank and
the inlined pupil-normalization bounds. -/
structure Mutator where
  enabled : Bool
  calibration_enabled : Bool
  continuous : Bool
  blend : ℚ
  calibration_state : CalibrationState
  cal_shapes : List CalibrationParameter
  shapeFilters : List EuroFilter
  opL : EuroFilter
  opR : EuroFilter
  glx : EuroFilter
  gly : EuroFilter
  grx : EuroFilter
  gry : EuroFilter
  puL : EuroFilter
  puR : EuroFilter
  min_pupil_l : ℚ
  max_pupil_l : ℚ
  min_pupil_r : ℚ
  max_pupil_r : ℚ

/-- The per-shape calibration loop of `mutate`: each weight is fed to
`update_calibration` and rewritten by `calculate_parameter`; indices
beyond either list are left untouched. -/
def calLoop (ops : FloatOps) (cont : Bool) (blend dt : ℚ) :
    List CalibrationParameter → List ℚ →
    List CalibrationParameter × List ℚ
  | cals, [] => (cals, [])
  | [], ws => ([], ws)
  | c :: cs, w :: ws =>
    ((update_calibration ops c w cont dt) ::
        (calLoop ops cont blend dt cs ws).1,
      (calculate_parameter ops (update_calibration ops c w cont dt) w blend) ::
        (calLoop ops cont blend dt cs ws).2)

/-- The per-shape smoothing loop of `mutate`: each weight through its
One-Euro filter; indices beyond either list are left untouched. -/
def smoothLoop : List EuroFilter → List ℚ → List EuroFilter × List ℚ
  | fs, [] => (fs, [])
  | [], ws => ([], ws)
  | f :: fs, w :: ws =>
    ((euroFilter f (some w)).2 :: (smoothLoop fs ws).1,
      (euroFilter f (some w)).1 :: (smoothLoop fs ws).2)

/-- Embeds `mutator.rs::UnifiedTrackingMutator::mutate`: early-out when
disabled; otherwise advance the calibration timer, run calibration over
the shape weights when enabled, run every One-Euro filter, and finish
with the inlined pupil normalization on the smoothed diameters. -/
def mutate (ops : FloatOps) (m : Mutator) (data : TrackFrame) (dt : ℚ) :
    Mutator × TrackFrame :=
  if ! m.enabled then (m, data)
  else
    let st :=
      match m.calibration_state with
      | CalibrationState.collecting timer duration =>
        if duration ≤ timer + dt then CalibrationState.calibrated
        else CalibrationState.collecting (timer + dt) duration
      | s => s
    let cal :=
      if m.calibration_enabled then
        calLoop ops m.continuous m.blend dt m.cal_shapes data.shapes
      else (m.cal_shapes, data.shapes)
    let opLr := euroFilter m.opL (some data.eyeL.openness)
    let opRr := euroFilter m.opR (some data.eyeR.openness)
    let glxr := euroFilter m.glx (some data.eyeL.gazeX)
    let glyr := euroFilter m.gly (some data.eyeL.gazeY)
    let grxr := euroFilter m.grx (some data.eyeR.gazeX)
    let gryr := euroFilter m.gry (some data.eyeR.gazeY)
    let puLr := euroFilter m.puL (some data.eyeL.pupil)
    let puRr := euroFilter m.puR (some data.eyeR.pupil)
    let sm := smoothLoop m.shapeFilters cal.2
    let nr := normMutate
      { min_pupil_l := m.min_pupil_l, max_pupil_l := m.max_pupil_l,
        min_pupil_r := m.min_pupil_r, max_pupil_r := m.max_pupil_r }
      puLr.1 puRr.1
    ({ m with
        calibration_state := st,
        cal_shapes := cal.1,
        shapeFilters := sm.1,
        opL := opLr.2, opR := opRr.2, glx := glxr.2, gly := glyr.2,
        grx := grxr.2, gry := gryr.2, puL := puLr.2, puR := puRr.2,
        min_pupil_l := nr.1.min_pupil_l, max_pupil_l := nr.1.max_pupil_l,
        min_pupil_r := nr.1.min_pupil_r, max_pupil_r := nr.1.max_pupil_r },
      { eyeL := { openness := opLr.1, gazeX := glxr.1, gazeY := glyr.1, pupil := nr.2.1 },
        eyeR := { openness := opRr.1, gazeX := grxr.1, gazeY := gryr.1, pupil := nr.2.2 },
        shapes := sm.2 })

/-- Claim C10: with `config.mutator.enabled = false`, `mutate` returns
the frame and the whole mutator state unchanged — in particular the
calibration timer does not advance, so a `Collecting` state cannot reach
`Calibrated` while disabled. -/
theorem mutate_disabled_noop (ops : FloatOps) (m : Mutator)
    (data : TrackFrame) (dt : ℚ) (hdis : m.enabled = false) :
    mutate ops m data dt = (m, data) := by
  unfold mutate
  rw [hdis]
  rfl

/-- A concrete disabled mutator mid-collection, for the witness. -/
def sampleMutator : Mutator :=
  { enabled := false, calibration_enabled := true, continuous := false,
    blend := 1, calibration_state := CalibrationState.collecting 2 30,
    cal_shapes := [calDefault], shapeFilters := [euroDefault],
    opL := euroDefault, opR := euroDefault, glx := euroDefault,
    gly := euroDefault, grx := euroDefault, gry := euroDefault,
    puL := euroDefault, puR := euroDefault,
    min_pupil_l := 999, max_pupil_l := 0, min_pupil_r := 999,
    max_pupil_r := 0 }

/-- A concrete frame for the witness. -/
def sampleTrackFrame : TrackFrame :=
  { eyeL := { openness := 1, gazeX := 0, gazeY := 0, pupil := 3 },
    eyeR := { openness := 1, gazeX := 0, gazeY := 0, pupil := 3 },
    shapes := [1 / 2] }

theorem mutate_disabled_noop_witness :
    sampleMutator.enabled = false ∧
    mutate opsId sampleMutator sampleTrackFrame 1 =
      (sampleMutator, sampleTrackFrame) :=
  ⟨rfl, mutate_disabled_noop opsId sampleMutator sampleTrackFrame 1 rfl⟩

end VRFT
